import Mathlib

/-!
Verification of the elliptic-curve subsystem of `sk_cryptography`
(`src/sk_cryptography/elliptic_curves.py`), a SageMath-based library
implementing ECDH and ECDSA.

The embedding represents Sage's `EllipticCurve(GF(q), [A,B])` by the short
Weierstrass curve `y² = x³ + A·x + B` over `ZMod q` and its group
`E(GF(q))` by Mathlib's `WeierstrassCurve.Affine.Point`, whose addition is
the standard affine chord-tangent law that Sage implements.  Randomness
(`randint`, `E.random_element()`) is injected as explicit parameters, and
Python exceptions / the `"Invalid input"` string sentinel are reflected in
an explicit result type `Ret`.
-/

namespace SkCrypto

open WeierstrassCurve WeierstrassCurve.Affine

/-- Result of a Python function call: a normal return value, the string
sentinel `"Invalid input"`, or an uncaught exception propagating to the
caller. -/
inductive Ret (α : Type) where
  | ok (a : α)
  | invalidInput
  | raised
deriving DecidableEq

/-- The curve `y² = x³ + A·x + B` over `GF(q)`, as built by
`EllipticCurve(GF(q), [A,B])`. -/
def curveW (q : ℕ) (A B : ZMod q) : WeierstrassCurve.Affine (ZMod q) :=
  { a₁ := 0, a₂ := 0, a₃ := 0, a₄ := A, a₆ := B }

/-- The membership test performed by Sage's point constructor `E(x, y)`:
the affine coordinates satisfy the curve equation. -/
def onCurve (q : ℕ) (A B : ZMod q) (P : ZMod q × ZMod q) : Prop :=
  P.2 ^ 2 = P.1 ^ 3 + A * P.1 + B

instance (q : ℕ) (A B : ZMod q) (P : ZMod q × ZMod q) : Decidable (onCurve q A B P) := by
  unfold onCurve
  infer_instance

lemma onCurve_iff_equation (q : ℕ) (A B : ZMod q) (P : ZMod q × ZMod q) :
    onCurve q A B P ↔ (curveW q A B).Equation P.1 P.2 := by
  rw [equation_iff]
  show onCurve q A B P ↔
    P.2 ^ 2 + 0 * P.1 * P.2 + 0 * P.2 = P.1 ^ 3 + 0 * P.1 ^ 2 + A * P.1 + B
  rw [onCurve]
  constructor <;> intro h <;> linear_combination h

/-- The curve point produced by `E(x, y)` for coordinates on a nonsingular
curve. -/
def mkPoint {q : ℕ} {A B : ZMod q} (hΔ : (curveW q A B).Δ ≠ 0) {P : ZMod q × ZMod q}
    (h : onCurve q A B P) : (curveW q A B).Point :=
  Point.some (nonsingular_of_Δ_ne_zero _ ((onCurve_iff_equation q A B P).mp h) hΔ)

/-- Affine coordinates of a point, `none` for the point at infinity. -/
def toCoords {q : ℕ} {W : WeierstrassCurve.Affine (ZMod q)} : W.Point → Option (ZMod q × ZMod q)
  | .zero => none
  | @Point.some _ _ _ x y _ => some (x, y)

lemma toCoords_injective {q : ℕ} {W : WeierstrassCurve.Affine (ZMod q)} :
    Function.Injective (toCoords (W := W)) := by
  rintro (_ | @⟨x₁, y₁, h₁⟩) (_ | @⟨x₂, y₂, h₂⟩) h
  · rfl
  · exact absurd h (by simp [toCoords])
  · exact absurd h (by simp [toCoords])
  · simp only [toCoords, Option.some.injEq, Prod.mk.injEq] at h
    obtain ⟨rfl, rfl⟩ := h
    rfl

instance {q : ℕ} {W : WeierstrassCurve.Affine (ZMod q)} : DecidableEq W.Point := fun P Q =>
  decidable_of_iff (toCoords P = toCoords Q) ⟨fun h => toCoords_injective h, fun h => h ▸ rfl⟩

instance instFinitePoint {q : ℕ} [NeZero q] {W : WeierstrassCurve.Affine (ZMod q)} :
    Finite W.Point :=
  Finite.of_injective toCoords toCoords_injective

/-- The pair `(ZZ(P[0]), ZZ(P[1]))` of a Sage point: the point at infinity
is the projective point `(0 : 1 : 0)`, so indexing it gives `(0, 1)`. -/
def pyCoords {q : ℕ} {W : WeierstrassCurve.Affine (ZMod q)} (P : W.Point) : ℕ × ℕ :=
  match toCoords P with
  | none => (0, 1)
  | some c => (c.1.val, c.2.val)

/-- `ZZ(P[0])` of a Sage point (`0` for the point at infinity). -/
def pyX {q : ℕ} {W : WeierstrassCurve.Affine (ZMod q)} (P : W.Point) : ℕ :=
  (pyCoords P).1

/-- Multiplicative inverse in `ZMod q` computed by exhaustive search, so
that concrete instances reduce by `decide`. -/
def zinv (q : ℕ) (a : ZMod q) : ZMod q :=
  Nat.cast (((List.range q).find? fun b => a * (Nat.cast b : ZMod q) == 1).getD 0)

lemma zinv_eq_inv (q : ℕ) [Fact q.Prime] (a : ZMod q) : zinv q a = a⁻¹ := by
  rcases eq_or_ne a 0 with rfl | ha
  · have hnone : ((List.range q).find? fun b => (0 : ZMod q) * (Nat.cast b : ZMod q) == 1)
        = none := by
      rw [List.find?_eq_none]
      intro b _
      simp
    rw [zinv, hnone]
    simp
  · have hmem : (a⁻¹).val ∈ List.range q := by
      rw [List.mem_range]
      exact ZMod.val_lt _
    have hpred : (fun b => a * (Nat.cast b : ZMod q) == 1) (a⁻¹).val = true := by
      simp only [ZMod.natCast_val, ZMod.cast_id, beq_iff_eq]
      exact mul_inv_cancel₀ ha
    have hsome : (((List.range q).find? fun b => a * (Nat.cast b : ZMod q) == 1)).isSome :=
      List.find?_isSome.mpr ⟨(a⁻¹).val, hmem, hpred⟩
    obtain ⟨b, hb⟩ := Option.isSome_iff_exists.mp hsome
    have hbeq := List.find?_some hb
    simp only [beq_iff_eq] at hbeq
    rw [zinv, hb, Option.getD_some]
    exact eq_inv_of_mul_eq_one_right hbeq

/-- Computable version of `WeierstrassCurve.Affine.slope`. -/
def ecSlope {q : ℕ} (W : WeierstrassCurve.Affine (ZMod q)) (x₁ x₂ y₁ y₂ : ZMod q) : ZMod q :=
  if x₁ = x₂ then
    if y₁ = W.negY x₂ y₂ then 0
    else (3 * x₁ ^ 2 + 2 * W.a₂ * x₁ + W.a₄ - W.a₁ * y₁) * zinv q (y₁ - W.negY x₁ y₁)
  else (y₁ - y₂) * zinv q (x₁ - x₂)

lemma ecSlope_eq {q : ℕ} [Fact q.Prime] (W : WeierstrassCurve.Affine (ZMod q))
    (x₁ x₂ y₁ y₂ : ZMod q) : ecSlope W x₁ x₂ y₁ y₂ = W.slope x₁ x₂ y₁ y₂ := by
  by_cases hx : x₁ = x₂
  · by_cases hy : y₁ = W.negY x₂ y₂
    · rw [ecSlope, if_pos hx, if_pos hy, slope_of_Y_eq hx hy]
    · rw [ecSlope, if_pos hx, if_neg hy, slope_of_Y_ne hx hy, zinv_eq_inv, div_eq_mul_inv]
  · rw [ecSlope, if_neg hx, slope_of_X_ne hx, zinv_eq_inv, div_eq_mul_inv]

/-- Computable chord-tangent addition on nonsingular points; agrees with
Mathlib's group operation (`ecAdd_eq`). -/
def ecAdd {q : ℕ} [Fact q.Prime] {W : WeierstrassCurve.Affine (ZMod q)} :
    W.Point → W.Point → W.Point
  | .zero, P => P
  | P, .zero => P
  | @Point.some _ _ _ x₁ y₁ h₁, @Point.some _ _ _ x₂ y₂ h₂ =>
    if hxy : x₁ = x₂ ∧ y₁ = W.negY x₂ y₂ then .zero
    else
      Point.some ((ecSlope_eq W x₁ x₂ y₁ y₂).symm ▸
        nonsingular_add h₁ h₂ fun hx hy => hxy ⟨hx, hy⟩)

lemma ecAdd_eq {q : ℕ} [Fact q.Prime] {W : WeierstrassCurve.Affine (ZMod q)} (P Q : W.Point) :
    ecAdd P Q = P + Q := by
  apply toCoords_injective
  rcases P with _ | @⟨x₁, y₁, h₁⟩ <;> rcases Q with _ | @⟨x₂, y₂, h₂⟩
  · rfl
  · rw [show ecAdd Point.zero (Point.some h₂) = Point.some h₂ from rfl, Point.zero_def, zero_add]
  · rw [show ecAdd (Point.some h₁) Point.zero = Point.some h₁ from rfl, Point.zero_def, add_zero]
  · by_cases hxy : x₁ = x₂ ∧ y₁ = W.negY x₂ y₂
    · rw [show ecAdd (Point.some h₁) (Point.some h₂) = dite _ _ _ from rfl, dif_pos hxy,
        Point.add_of_Y_eq hxy.1 hxy.2]
      rfl
    · rw [show ecAdd (Point.some h₁) (Point.some h₂) = dite _ _ _ from rfl, dif_neg hxy,
        Point.add_of_imp fun hx hy => hxy ⟨hx, hy⟩]
      simp only [toCoords, ecSlope_eq]

/-- Scalar multiplication `k·P` as iterated addition; agrees with Mathlib's
`k • P` (`ecSmul_eq`). -/
def ecSmul {q : ℕ} [Fact q.Prime] {W : WeierstrassCurve.Affine (ZMod q)} :
    ℕ → W.Point → W.Point
  | 0, _ => .zero
  | n + 1, P => ecAdd P (ecSmul n P)

lemma ecSmul_eq {q : ℕ} [Fact q.Prime] {W : WeierstrassCurve.Affine (ZMod q)} (n : ℕ)
    (P : W.Point) : ecSmul n P = n • P := by
  induction n with
  | zero => rw [ecSmul, zero_nsmul, Point.zero_def]
  | succ n ih => rw [ecSmul, ecAdd_eq, ih, succ_nsmul']

/-!
## The embedded functions of `elliptic_curves.py`

Python's dynamic failure modes are made explicit: an uncaught Sage
exception becomes `Ret.raised`, the returned string `"Invalid input"`
becomes `Ret.invalidInput`.  Sage library calls are given their standard
mathematical denotations: `E.cardinality()` is `Nat.card`,
`G.additive_order()` / `G.order()` is `addOrderOf`, `k*P` is `ecSmul`
(provably `k • P`), and `power_mod(k, -1, p)` / `s^(-1)` is `zinv`
(provably the unique modular inverse), guarded by the coprimality
condition under which Sage raises `ZeroDivisionError`.
-/

/-- `pubkey(p, A, B, P, k)`: the ECDH public key `k·P`, with the explicit
primality check, the two `try`/`except` blocks around curve and point
construction (singular curve, point not on the curve), and the rejection
of an identity result. -/
def pubkey (q : ℕ) [Fact q.Prime] (A B : ZMod q) (P : ZMod q × ZMod q) (k : ℕ) :
    Ret (ZMod q × ZMod q) :=
  if ¬ (Nat.Prime q ∧ 2 < q) then .invalidInput
  else if hd : (curveW q A B).Δ = 0 then .invalidInput
  else if hP : onCurve q A B P then
    match toCoords (ecSmul k (mkPoint hd hP)) with
    | none => .invalidInput
    | some c => .ok c
  else .invalidInput

/-- `ecdh(p, A, B, b, Q)`: the shared secret `b·Q` as the integer pair
`(ZZ(S[0]), ZZ(S[1]))`.  No input validation is performed: a singular
curve or an off-curve point raises inside Sage. -/
def ecdh (q : ℕ) [Fact q.Prime] (A B : ZMod q) (b : ℕ) (Q : ZMod q × ZMod q) : Ret (ℕ × ℕ) :=
  if hd : (curveW q A B).Δ = 0 then .raised
  else if hQ : onCurve q A B Q then .ok (pyCoords (ecSmul b (mkPoint hd hQ)))
  else .raised

/-- `ecsig(p, q, A, B, G, d, m)`: the ECDSA signature.  The ephemeral
nonce `k = ephemeralkey(p)` is drawn by `randint` and is injected here as
the explicit parameter `k`.  Note that the source never computes `k·G`:
after the dead assignment `R = IntegerModRing(q)` it sets
`r = mod(G[0], p)` from the x-coordinate of the *base point* `G`, and
`s = power_mod(k,-1,p) * (m + r*d) mod p`.  `Q = d*G` is returned as
`(ZZ(Q[0]), ZZ(Q[1]))`. -/
noncomputable def ecsig (p q : ℕ) [Fact q.Prime] (A B : ZMod q) (G : ZMod q × ZMod q)
    (d m k : ℕ) : Ret ((ℕ × ℕ) × (ℕ × ℕ)) :=
  if hd : (curveW q A B).Δ = 0 then .raised
  else if hG : onCurve q A B G then
    if addOrderOf (mkPoint hd hG) ≠ p then .invalidInput
    else
      let Q := ecSmul d (mkPoint hd hG)
      if p ≤ m ∨ q ≤ m then .invalidInput
      else if Nat.gcd k p ≠ 1 then .raised
      else
        let r : ZMod p := (G.1.val : ZMod p)
        let s : ZMod p := zinv p (k : ZMod p) * ((m : ZMod p) + r * (d : ZMod p))
        .ok ((r.val, s.val), pyCoords Q)
  else .raised

/-- `ecdsaverify(q, A, B, G, p, Q, m, signature)`: ECDSA verification.
`r` and `s` are reduced into `IntegerModRing(p)` with no range check;
`s^(-1)` raises `ZeroDivisionError` when `s` is not invertible mod `p`;
the verdict compares `ZZ(C[0]) % p` with `r`, where
`C = (ss*m)·G + (ss*ZZ(r))·Q` and an identity `C` indexes as `0`. -/
noncomputable def ecdsaverify (q : ℕ) [Fact q.Prime] (A B : ZMod q) (G : ZMod q × ZMod q)
    (p : ℕ) (Q : ZMod q × ZMod q) (m : ℕ) (signature : ℕ × ℕ) : Ret Bool :=
  if hd : (curveW q A B).Δ = 0 then .raised
  else if hG : onCurve q A B G then
    if hQ : onCurve q A B Q then
      if addOrderOf (mkPoint hd hG) ≠ p then .invalidInput
      else
        let r : ZMod p := (signature.1 : ZMod p)
        let s : ZMod p := (signature.2 : ZMod p)
        if Nat.gcd s.val p ≠ 1 then .raised
        else
          let ss := (zinv p s).val
          let C := ecAdd (ecSmul (ss * m) (mkPoint hd hG)) (ecSmul (ss * r.val) (mkPoint hd hQ))
          if ((pyX C % p : ℕ) : ZMod p) = r then .ok true else .ok false
    else .raised
  else .raised

/-- The `while True` point-search loop of `ecsigset`, with the successive
results of `E.random_element()` injected as the stream `g`.  The loop has
no retry bound in the source; a fuel argument makes the unbounded
iteration definable, with `none` meaning that the loop is still running
after `fuel` iterations. -/
noncomputable def ecsigsetSearch (q : ℕ) [Fact q.Prime] {A B : ZMod q} (p : ℕ)
    (g : ℕ → (curveW q A B).Point) : ℕ → Option ((curveW q A B).Point)
  | 0 => none
  | fuel + 1 =>
    if addOrderOf (g 0) % p = 0 then some (g 0)
    else ecsigsetSearch q p (fun i => g (i + 1)) fuel

/-- The subgroup order taken by `ecsigset`: with `F = E.cardinality()`
and `pf = prime_factors(F)` (the ascending list of distinct prime
factors), the entry `p = pf[len(pf)-1]`.  The last entry of the ascending
with-multiplicity factor list is that same largest prime factor. -/
noncomputable def largestPF (q : ℕ) [Fact q.Prime] (A B : ZMod q) : ℕ :=
  (Nat.card (curveW q A B).Point).primeFactorsList.getLastD 0

/-- `ecsigset(q, A, B)` up to the final coordinate extraction: searches
for a random point `G` with `p ∣ G.order()` and returns
`(p, (G.order()/p)·G)`. -/
noncomputable def ecsigsetPoint (q : ℕ) [Fact q.Prime] (A B : ZMod q)
    (g : ℕ → (curveW q A B).Point) (fuel : ℕ) : Option (ℕ × (curveW q A B).Point) :=
  match ecsigsetSearch q (largestPF q A B) g fuel with
  | none => none
  | some G0 => some (largestPF q A B, ecSmul (addOrderOf G0 / largestPF q A B) G0)

/-- `ecsigset(q, A, B)`: the returned pair `(p, (ZZ(G[0]), ZZ(G[1])))`. -/
noncomputable def ecsigset (q : ℕ) [Fact q.Prime] (A B : ZMod q)
    (g : ℕ → (curveW q A B).Point) (fuel : ℕ) : Option (ℕ × (ℕ × ℕ)) :=
  (ecsigsetPoint q A B g fuel).map fun x => (x.1, pyCoords x.2)

/-!
## Helper lemmas
-/

lemma ecsigsetSearch_eq_none {q : ℕ} [Fact q.Prime] {A B : ZMod q} {p : ℕ} :
    ∀ (fuel : ℕ) (g : ℕ → (curveW q A B).Point), (∀ i, addOrderOf (g i) % p ≠ 0) →
      ecsigsetSearch q p g fuel = none := by
  intro fuel
  induction fuel with
  | zero => intro g h; rfl
  | succ n ih =>
    intro g h
    rw [ecsigsetSearch, if_neg (h 0)]
    exact ih _ fun i => h (i + 1)

lemma ecsigsetSearch_some {q : ℕ} [Fact q.Prime] {A B : ZMod q} {p : ℕ} :
    ∀ {fuel : ℕ} {g : ℕ → (curveW q A B).Point} {G0 : (curveW q A B).Point},
      ecsigsetSearch q p g fuel = some G0 → addOrderOf G0 % p = 0 := by
  intro fuel
  induction fuel with
  | zero => intro g G0 h; exact absurd h (by rw [ecsigsetSearch]; simp)
  | succ n ih =>
    intro g G0 h
    rw [ecsigsetSearch] at h
    by_cases hb : addOrderOf (g 0) % p = 0
    · rw [if_pos hb] at h
      injection h with h
      exact h ▸ hb
    · rw [if_neg hb] at h
      exact ih h

lemma le_getLastD_of_sorted :
    ∀ (l : List ℕ), l.Sorted (· ≤ ·) → ∀ (d : ℕ), ∀ a ∈ l, a ≤ l.getLastD d := by
  intro l
  induction l with
  | nil => intro _ d a ha; cases ha
  | cons x xs ih =>
    intro hs d a ha
    obtain ⟨hx, hxs⟩ := List.sorted_cons.mp hs
    rw [List.getLastD_cons]
    rcases List.mem_cons.mp ha with rfl | hmem
    · cases xs with
      | nil => exact le_refl _
      | cons y ys =>
        exact le_trans (hx y (List.mem_cons_self y ys)) (ih hxs a y (List.mem_cons_self y ys))
    · exact ih hxs x a hmem

lemma getLastD_primeFactorsList_mem {F : ℕ} (h : F.primeFactorsList.getLastD 0 ≠ 0) :
    F.primeFactorsList.getLastD 0 ∈ F.primeFactorsList := by
  cases hl : F.primeFactorsList with
  | nil => exact absurd (by rw [hl]; rfl) h
  | cons x xs =>
    rw [List.getLastD_cons]
    exact List.getLastD_mem_cons xs x

/-- Sage's `prime_factors(F)[-1]` is either prime or the degenerate value
`0` (only when `F ≤ 1`, which cannot occur for a curve cardinality). -/
lemma getLastD_primeFactorsList_prime {F : ℕ} (h : F.primeFactorsList.getLastD 0 ≠ 0) :
    (F.primeFactorsList.getLastD 0).Prime :=
  Nat.prime_of_mem_primeFactorsList (getLastD_primeFactorsList_mem h)

/-!
## Concrete curves used as witnesses

`y² = x³ + x + 6` over `GF(11)` with base point `(2, 7)` of prime order
`13` (the full group), and `y² = x³ + x + 1` over `GF(5)`, a cyclic group
of order `9` generated by `(0, 1)`.
-/

instance : Fact (Nat.Prime 5) := ⟨by norm_num⟩

instance : Fact (Nat.Prime 7) := ⟨by norm_num⟩

instance : Fact (Nat.Prime 11) := ⟨by norm_num⟩

instance : Fact (Nat.Prime 13) := ⟨by norm_num⟩

/-- The point `(2, 7)` on `y² = x³ + x + 6` over `GF(11)`. -/
def G11 : (curveW 11 1 6).Point :=
  mkPoint (by decide) (P := ((2 : ZMod 11), (7 : ZMod 11))) (by decide)

/-- The point `(5, 2) = 2·(2,7)` on the same curve. -/
def G11b : (curveW 11 1 6).Point :=
  mkPoint (by decide) (P := ((5 : ZMod 11), (2 : ZMod 11))) (by decide)

lemma addOrderOf_G11 : addOrderOf G11 = 13 :=
  addOrderOf_eq_prime (by rw [← ecSmul_eq]; decide) (by decide)

lemma addOrderOf_G11b : addOrderOf G11b = 13 :=
  addOrderOf_eq_prime (by rw [← ecSmul_eq]; decide) (by decide)

/-- The point `(0, 1)` on `y² = x³ + x + 1` over `GF(5)`. -/
def G5 : (curveW 5 1 1).Point :=
  mkPoint (by decide) (P := ((0 : ZMod 5), (1 : ZMod 5))) (by decide)

lemma addOrderOf_G5 : addOrderOf G5 = 9 := by
  have h9 : (9 : ℕ) • G5 = 0 := by rw [← ecSmul_eq]; decide
  have hdvd : addOrderOf G5 ∣ 9 := addOrderOf_dvd_of_nsmul_eq_zero h9
  have hmem : addOrderOf G5 ∈ Nat.divisors 9 := Nat.mem_divisors.mpr ⟨hdvd, by norm_num⟩
  have hset : Nat.divisors 9 = {1, 3, 9} := by decide
  rw [hset] at hmem
  have h1 : ¬ (1 : ℕ) • G5 = 0 := by rw [← ecSmul_eq]; decide
  have h3 : ¬ (3 : ℕ) • G5 = 0 := by rw [← ecSmul_eq]; decide
  rcases Finset.mem_insert.mp hmem with h | hmem
  · exact absurd (h ▸ addOrderOf_nsmul_eq_zero G5) h1
  rcases Finset.mem_insert.mp hmem with h | hmem
  · exact absurd (h ▸ addOrderOf_nsmul_eq_zero G5) h3
  exact Finset.mem_singleton.mp hmem

lemma card_curve5 : Nat.card (curveW 5 1 1).Point = 9 := by
  have hinj : Function.Injective (fun P : (curveW 5 1 1).Point =>
      (toCoords P).map fun c => (c.1, decide (c.2.val ≤ 2))) := by
    rintro (_ | @⟨x₁, y₁, h₁⟩) (_ | @⟨x₂, y₂, h₂⟩) h
    · rfl
    · exact absurd h (by simp [toCoords])
    · exact absurd h (by simp [toCoords])
    · simp only [toCoords, Option.map_some', Option.some.injEq, Prod.mk.injEq] at h
      obtain ⟨hx, hb⟩ := h
      have hy := Y_eq_of_X_eq h₁.1 h₂.1 hx
      have key : ∀ x y₁ y₂ : ZMod 5, y₁ = (curveW 5 1 1).negY x y₂ →
          decide (y₁.val ≤ 2) = decide (y₂.val ≤ 2) → y₁ = y₂ := by decide
      rcases hy with hy | hy
      · clear hb
        subst hx hy; rfl
      · have hyy : y₁ = y₂ := key x₂ y₁ y₂ hy hb
        clear hb
        subst hx hyy; rfl
  have hle : Nat.card (curveW 5 1 1).Point ≤ 11 := by
    have h1 := Nat.card_le_card_of_injective _ hinj
    have h2 : Nat.card (Option (ZMod 5 × Bool)) = 11 := by
      rw [Nat.card_eq_fintype_card]
      decide
    omega
  have hdvd : (9 : ℕ) ∣ Nat.card (curveW 5 1 1).Point :=
    addOrderOf_G5 ▸ addOrderOf_dvd_natCard G5
  have hpos : 0 < Nat.card (curveW 5 1 1).Point :=
    @Nat.card_pos _ ⟨(0 : (curveW 5 1 1).Point)⟩ _
  obtain ⟨k, hk⟩ := hdvd
  omega

lemma primeFactorsList_nine : Nat.primeFactorsList 9 = [3, 3] := by
  have hperm : List.Perm [3, 3] (Nat.primeFactorsList 9) :=
    Nat.primeFactorsList_unique (by norm_num) (by
      intro p hp
      rcases List.mem_cons.mp hp with rfl | hp
      · norm_num
      · rcases List.mem_cons.mp hp with rfl | hp
        · norm_num
        · cases hp)
  exact (List.eq_of_perm_of_sorted hperm (by decide) (Nat.primeFactorsList_sorted 9)).symm

/-!
## Properties of `ecsigset`
-/

lemma largestPF_prime_of_ne_zero {q : ℕ} [Fact q.Prime] {A B : ZMod q}
    (h : largestPF q A B ≠ 0) : (largestPF q A B).Prime :=
  getLastD_primeFactorsList_prime h

/-- Any successful run of the subgroup search yields the largest prime
factor of the curve cardinality together with a point of additive order
exactly that prime. -/
lemma ecsigsetPoint_spec {q : ℕ} [Fact q.Prime] {A B : ZMod q}
    {g : ℕ → (curveW q A B).Point} {fuel n : ℕ} {Gres : (curveW q A B).Point}
    (h : ecsigsetPoint q A B g fuel = some (n, Gres)) :
    n.Prime ∧ n ∣ Nat.card (curveW q A B).Point ∧
      (∀ r ∈ (Nat.card (curveW q A B).Point).primeFactors, r ≤ n) ∧
      addOrderOf Gres = n ∧ n • Gres = 0 ∧ ∀ m, 0 < m → m < n → m • Gres ≠ 0 := by
  unfold ecsigsetPoint at h
  cases hs : ecsigsetSearch q (largestPF q A B) g fuel with
  | none => rw [hs] at h; cases h
  | some G0 =>
    rw [hs] at h
    injection h with h
    have h1 : largestPF q A B = n := congrArg Prod.fst h
    have h2 : ecSmul (addOrderOf G0 / largestPF q A B) G0 = Gres := congrArg Prod.snd h
    subst h1
    subst h2
    have hbrk : addOrderOf G0 % largestPF q A B = 0 := ecsigsetSearch_some hs
    have ho : addOrderOf G0 ≠ 0 := (addOrderOf_pos G0).ne'
    have hdv : largestPF q A B ∣ addOrderOf G0 := Nat.dvd_of_mod_eq_zero hbrk
    have hn0 : largestPF q A B ≠ 0 := by
      intro hz
      rw [hz] at hdv
      exact ho (Nat.eq_zero_of_zero_dvd hdv)
    have hmem := getLastD_primeFactorsList_mem hn0
    have hprime := Nat.prime_of_mem_primeFactorsList hmem
    have hdvdF := Nat.dvd_of_mem_primeFactorsList hmem
    have horder : addOrderOf (ecSmul (addOrderOf G0 / largestPF q A B) G0) = largestPF q A B := by
      rw [ecSmul_eq]
      exact addOrderOf_nsmul_addOrderOf_sub ho hdv
    refine ⟨hprime, hdvdF, ?_, horder, ?_, ?_⟩
    · intro r hr
      rw [Nat.mem_primeFactors] at hr
      exact le_getLastD_of_sorted _ (Nat.primeFactorsList_sorted _) 0 r
        ((Nat.mem_primeFactorsList hr.2.2).mpr ⟨hr.1, hr.2.1⟩)
    · have hz := addOrderOf_nsmul_eq_zero (ecSmul (addOrderOf G0 / largestPF q A B) G0)
      rw [horder] at hz
      exact hz
    · intro m hm0 hmn hcontra
      have hdd := addOrderOf_dvd_of_nsmul_eq_zero hcontra
      rw [horder] at hdd
      exact absurd (Nat.le_of_dvd hm0 hdd) (not_le.mpr hmn)

lemma ecsigsetPoint_zero_stream {q : ℕ} [Fact q.Prime] (A B : ZMod q) (fuel : ℕ) :
    ecsigsetPoint q A B (fun _ => 0) fuel = none := by
  have hne : ∀ i : ℕ, addOrderOf ((fun _ => (0 : (curveW q A B).Point)) i) % largestPF q A B
      ≠ 0 := by
    intro i
    show ¬ addOrderOf (0 : (curveW q A B).Point) % largestPF q A B = 0
    rw [addOrderOf_zero]
    rcases eq_or_ne (largestPF q A B) 0 with hp | hp
    · rw [hp, Nat.mod_zero]
      exact one_ne_zero
    · have h2 := (largestPF_prime_of_ne_zero hp).two_le
      rw [Nat.mod_eq_of_lt (by omega)]
      exact one_ne_zero
  unfold ecsigsetPoint
  rw [ecsigsetSearch_eq_none fuel _ hne]

lemma ecsigset_zero_stream {q : ℕ} [Fact q.Prime] (A B : ZMod q) (fuel : ℕ) :
    ecsigset q A B (fun _ => 0) fuel = none := by
  rw [ecsigset, ecsigsetPoint_zero_stream]
  rfl

lemma ecsigsetPoint_concrete : ecsigsetPoint 5 1 1 (fun _ => G5) 1 = some (3, ecSmul 3 G5) := by
  have hpf : largestPF 5 1 1 = 3 := by
    rw [largestPF, card_curve5, primeFactorsList_nine]
    rfl
  unfold ecsigsetPoint ecsigsetSearch
  rw [hpf]
  rw [if_pos (by show addOrderOf G5 % 3 = 0; rw [addOrderOf_G5])]
  show some (3, ecSmul (addOrderOf G5 / 3) G5) = _
  rw [addOrderOf_G5]

/-!
## Evaluation lemmas for the protocol functions
-/

lemma onCurve_of_toCoords {q : ℕ} {A B : ZMod q} {X : (curveW q A B).Point}
    {c : ZMod q × ZMod q} (h : toCoords X = some c) : onCurve q A B c := by
  rcases X with _ | @⟨x, y, hxy⟩
  · exact absurd h (by simp [toCoords])
  · simp only [toCoords, Option.some.injEq] at h
    subst h
    exact (onCurve_iff_equation q A B (x, y)).mpr hxy.1

lemma mkPoint_toCoords {q : ℕ} [Fact q.Prime] {A B : ZMod q} {X : (curveW q A B).Point}
    {c : ZMod q × ZMod q} (hd : (curveW q A B).Δ ≠ 0) (h : toCoords X = some c)
    (hc : onCurve q A B c) : mkPoint hd hc = X := by
  apply toCoords_injective
  rcases X with _ | @⟨x, y, hxy⟩
  · exact absurd h (by simp [toCoords])
  · simp only [toCoords, Option.some.injEq] at h
    subst h
    rfl

lemma pubkey_ok {q : ℕ} [Fact q.Prime] {A B : ZMod q} {P : ZMod q × ZMod q} {k : ℕ}
    {c : ZMod q × ZMod q} (h : pubkey q A B P k = .ok c) :
    ∃ (hd : (curveW q A B).Δ ≠ 0) (hP : onCurve q A B P),
      toCoords (ecSmul k (mkPoint hd hP)) = some c := by
  unfold pubkey at h
  by_cases h1 : ¬ (Nat.Prime q ∧ 2 < q)
  · rw [if_pos h1] at h
    exact Ret.noConfusion h
  rw [if_neg h1] at h
  by_cases h2 : (curveW q A B).Δ = 0
  · rw [dif_pos h2] at h
    exact Ret.noConfusion h
  rw [dif_neg h2] at h
  by_cases h3 : onCurve q A B P
  · rw [dif_pos h3] at h
    refine ⟨h2, h3, ?_⟩
    cases hc : toCoords (ecSmul k (mkPoint h2 h3)) with
    | none => rw [hc] at h; exact Ret.noConfusion h
    | some c0 =>
      rw [hc] at h
      injection h with h
      rw [h]
  · rw [dif_neg h3] at h
    exact Ret.noConfusion h

lemma ecdh_eval {q : ℕ} [Fact q.Prime] {A B : ZMod q} {b : ℕ} {Q : ZMod q × ZMod q}
    (hd : ¬ (curveW q A B).Δ = 0) (hQ : onCurve q A B Q) :
    ecdh q A B b Q = .ok (pyCoords (ecSmul b (mkPoint hd hQ))) := by
  unfold ecdh
  rw [dif_neg hd, dif_pos hQ]

lemma if_ok_bool (c : Prop) [Decidable c] :
    (if c then Ret.ok true else Ret.ok false) = Ret.ok (decide c) := by
  by_cases h : c
  · rw [if_pos h, decide_eq_true h]
  · rw [if_neg h, decide_eq_false h]

lemma ecsig_eval {p q : ℕ} [Fact q.Prime] {A B : ZMod q} {G : ZMod q × ZMod q} {d m k : ℕ}
    (hd : ¬ (curveW q A B).Δ = 0) (hG : onCurve q A B G)
    (hord : addOrderOf (mkPoint hd hG) = p) (hm : ¬ (p ≤ m ∨ q ≤ m))
    (hk : Nat.gcd k p = 1) :
    ecsig p q A B G d m k =
      .ok ((((G.1.val : ZMod p)).val,
            (zinv p (k : ZMod p) * ((m : ZMod p) + (G.1.val : ZMod p) * (d : ZMod p))).val),
           pyCoords (ecSmul d (mkPoint hd hG))) := by
  unfold ecsig
  rw [dif_neg hd, dif_pos hG]
  rw [if_neg (not_ne_iff.mpr hord)]
  rw [if_neg hm, if_neg (not_ne_iff.mpr hk)]

lemma ecsig_badorder {p q : ℕ} [Fact q.Prime] {A B : ZMod q} {G : ZMod q × ZMod q} {d m k : ℕ}
    (hd : ¬ (curveW q A B).Δ = 0) (hG : onCurve q A B G)
    (hord : addOrderOf (mkPoint hd hG) ≠ p) :
    ecsig p q A B G d m k = .invalidInput := by
  unfold ecsig
  rw [dif_neg hd, dif_pos hG, if_pos hord]

lemma ecdsaverify_eval {q : ℕ} [Fact q.Prime] {A B : ZMod q} {G : ZMod q × ZMod q} {p : ℕ}
    {Q : ZMod q × ZMod q} {m : ℕ} {sig : ℕ × ℕ}
    (hd : ¬ (curveW q A B).Δ = 0) (hG : onCurve q A B G) (hQ : onCurve q A B Q)
    (hord : addOrderOf (mkPoint hd hG) = p)
    (hs : Nat.gcd ((sig.2 : ZMod p)).val p = 1)
    {ss : ℕ} (hss : ss = (zinv p (sig.2 : ZMod p)).val)
    {C : (curveW q A B).Point}
    (hC : C = ecAdd (ecSmul (ss * m) (mkPoint hd hG))
      (ecSmul (ss * ((sig.1 : ZMod p)).val) (mkPoint hd hQ))) :
    ecdsaverify q A B G p Q m sig =
      .ok (decide (((pyX C % p : ℕ) : ZMod p) = (sig.1 : ZMod p))) := by
  subst hss
  subst hC
  unfold ecdsaverify
  rw [dif_neg hd, dif_pos hG, dif_pos hQ]
  rw [if_neg (not_ne_iff.mpr hord)]
  rw [if_neg (not_ne_iff.mpr hs)]
  exact if_ok_bool _

lemma ecdsaverify_raised {q : ℕ} [Fact q.Prime] {A B : ZMod q} {G : ZMod q × ZMod q} {p : ℕ}
    {Q : ZMod q × ZMod q} {m : ℕ} {sig : ℕ × ℕ}
    (hd : ¬ (curveW q A B).Δ = 0) (hG : onCurve q A B G) (hQ : onCurve q A B Q)
    (hord : addOrderOf (mkPoint hd hG) = p)
    (hs : Nat.gcd ((sig.2 : ZMod p)).val p ≠ 1) :
    ecdsaverify q A B G p Q m sig = .raised := by
  unfold ecdsaverify
  rw [dif_neg hd, dif_pos hG, dif_pos hQ]
  rw [if_neg (not_ne_iff.mpr hord)]
  rw [if_pos hs]

lemma ecdsaverify_badorder {q : ℕ} [Fact q.Prime] {A B : ZMod q} {G : ZMod q × ZMod q}
    {p : ℕ} {Q : ZMod q × ZMod q} {m : ℕ} {sig : ℕ × ℕ}
    (hd : ¬ (curveW q A B).Δ = 0) (hG : onCurve q A B G) (hQ : onCurve q A B Q)
    (hord : addOrderOf (mkPoint hd hG) ≠ p) :
    ecdsaverify q A B G p Q m sig = .invalidInput := by
  unfold ecdsaverify
  rw [dif_neg hd, dif_pos hG, dif_pos hQ, if_pos hord]

/-!
## Concrete protocol evaluations on the `GF(11)` curve

Subgroup: the full group of `y² = x³ + x + 6` over `GF(11)`, of prime
order `n = 13`, generated by `G = (2, 7)`.  Point multiples:
`2G = (5,2)`, `5G = (3,6)`, `6G = (7,9)`, `9G = (10,9)`, `13G = O`.
-/

lemma ecsig_c1 : ecsig 13 11 1 6 (2, 7) 2 1 2 = .ok ((2, 9), (5, 2)) := by
  rw [ecsig_eval (by decide) (by decide) addOrderOf_G11 (by decide) (by decide)]
  decide

lemma ecsig_c2 : ecsig 13 11 1 6 (2, 7) 1 1 2 = .ok ((2, 8), (2, 7)) := by
  rw [ecsig_eval (by decide) (by decide) addOrderOf_G11 (by decide) (by decide)]
  decide

lemma ecsig_c7 : ecsig 13 11 1 6 (2, 7) 6 1 2 = .ok ((2, 0), (7, 9)) := by
  rw [ecsig_eval (by decide) (by decide) addOrderOf_G11 (by decide) (by decide)]
  decide

lemma everify_c2 : ecdsaverify 11 1 6 (2, 7) 13 (2, 7) 1 (2, 8) = .ok false := by
  rw [ecdsaverify_eval (by decide) (by decide) (by decide) addOrderOf_G11 (by decide) rfl rfl]
  decide

lemma everify_c3 : ecdsaverify 11 1 6 (2, 7) 13 (2, 7) 1 (18, 3) = .ok true := by
  rw [ecdsaverify_eval (by decide) (by decide) (by decide) addOrderOf_G11 (by decide) rfl rfl]
  decide

lemma everify_c6 : ecdsaverify 11 1 6 (2, 7) 13 (2, 7) 1 (2, 0) = .raised :=
  ecdsaverify_raised (by decide) (by decide) (by decide) addOrderOf_G11 (by decide)

lemma ecsigset_concrete : ecsigset 5 1 1 (fun _ => G5) 1 = some (3, (2, 1)) := by
  rw [ecsigset, ecsigsetPoint_concrete]
  show some (3, pyCoords (ecSmul 3 G5)) = _
  decide

/-!
## Claims
-/

/-- C1: the claim states that `ecsig` computes `R = k·G` and sets
`r = R.x mod n`, not the x-coordinate of the base point `G`.  The code
does the opposite: on the order-13 subgroup of `y² = x³ + x + 6` over
`GF(11)` with `G = (2,7)`, `d = 2`, `m = 1` and nonce `k = 2`, the
returned `r` is `2 = G.x mod 13`, while `(k·G).x mod n = (2·G).x mod 13
= 5 ≠ 2`. -/
theorem C1_r_uses_base_point_x :
    ecsig 13 11 1 6 (2, 7) 2 1 2 = .ok ((2, 9), (5, 2)) ∧
    pyX (ecSmul 2 G11) % 13 = 5 ∧ (2 : ℕ) ≠ 5 :=
  ⟨ecsig_c1, by decide, by decide⟩

/-- C2: the claim states the ECDSA round trip succeeds.  It fails on the
code: with the order-13 subgroup of `y² = x³ + x + 6` over `GF(11)`,
`G = (2,7)`, private key `d = 1` (so `Q = G`), message `m = 1 < n` and
nonce `k = 2`, signing yields `(r, s) = (2, 8)` and verification of that
very signature returns `False`, because `r` was derived from `G.x` while
the verifier reconstructs `C = (k mod n)·G = 2·G` whose x-coordinate is
`5 ≠ 2`. -/
theorem C2_roundtrip_fails :
    ecsig 13 11 1 6 (2, 7) 1 1 2 = .ok ((2, 8), (2, 7)) ∧
    ecdsaverify 11 1 6 (2, 7) 13 (2, 7) 1 (2, 8) = .ok false :=
  ⟨ecsig_c2, everify_c2⟩

/-- C3: the claim states that verification rejects any signature with
`r ∉ [1, n-1]`.  The code performs no range check: it reduces `r` mod
`n`, so the out-of-range signature `(18, 3) = (5 + 13, 3)` is accepted
as valid on the order-13 subgroup (`(5, 3)` is a valid signature for
`m = 1`, `Q = G`). -/
theorem C3_out_of_range_accepted :
    ecdsaverify 11 1 6 (2, 7) 13 (2, 7) 1 (18, 3) = .ok true ∧ ¬ (1 ≤ 18 ∧ 18 ≤ 13 - 1) :=
  ⟨everify_c3, by decide⟩

/-- C4: every subgroup `(n, G)` returned by `ecsigset` has `n` the
largest prime factor of the curve cardinality, and the returned point
has additive order exactly `n`: `n·G = O` and no smaller positive
multiple vanishes. -/
theorem C4_ecsigset_subgroup {q : ℕ} [Fact q.Prime] {A B : ZMod q}
    {g : ℕ → (curveW q A B).Point} {fuel n : ℕ} {Gc : ℕ × ℕ}
    (h : ecsigset q A B g fuel = some (n, Gc)) :
    ∃ Gres : (curveW q A B).Point, pyCoords Gres = Gc ∧
      n.Prime ∧ n ∣ Nat.card (curveW q A B).Point ∧
      (∀ r ∈ (Nat.card (curveW q A B).Point).primeFactors, r ≤ n) ∧
      addOrderOf Gres = n ∧ n • Gres = 0 ∧ ∀ m, 0 < m → m < n → m • Gres ≠ 0 := by
  unfold ecsigset at h
  cases hp : ecsigsetPoint q A B g fuel with
  | none => rw [hp] at h; exact Option.noConfusion h
  | some r0 =>
    obtain ⟨n0, Gres⟩ := r0
    rw [hp] at h
    simp only [Option.map_some', Option.some.injEq, Prod.mk.injEq] at h
    obtain ⟨h1, h2⟩ := h
    subst h1
    refine ⟨Gres, h2, ?_⟩
    exact ecsigsetPoint_spec hp

/-- C4 witness: on `y² = x³ + x + 1` over `GF(5)` (cardinality `9`) with
the random stream constantly `G5 = (0,1)` of order `9`, `ecsigset`
returns `(3, (2,1))`, and the subgroup properties hold. -/
theorem C4_ecsigset_subgroup_witness :
    ecsigset 5 1 1 (fun _ => G5) 1 = some (3, (2, 1)) ∧
    ∃ Gres : (curveW 5 1 1).Point, pyCoords Gres = (2, 1) ∧
      (3 : ℕ).Prime ∧ 3 ∣ Nat.card (curveW 5 1 1).Point ∧
      (∀ r ∈ (Nat.card (curveW 5 1 1).Point).primeFactors, r ≤ 3) ∧
      addOrderOf Gres = 3 ∧ 3 • Gres = 0 ∧ ∀ m, 0 < m → m < 3 → m • Gres ≠ 0 :=
  ⟨ecsigset_concrete, C4_ecsigset_subgroup ecsigset_concrete⟩

/-- C5 counterexample: the claim states that the point search of
`ecsigset` takes a retry bound and fails with `SubgroupNotFound`,
terminating on every input.  The loop in the code is `while True` with
no bound and no error path: on the stream that always returns the
identity (a value `E.random_element()` can produce), no number of
iterations ever produces a result. -/
theorem C5_counterexample :
    ¬ ∃ (fuel : ℕ) (r : ℕ × (ℕ × ℕ)), ecsigset 5 1 1 (fun _ => 0) fuel = some r := by
  rintro ⟨fuel, r, h⟩
  rw [ecsigset_zero_stream] at h
  exact Option.noConfusion h

/-- C5 amended: `ecsigset`'s point search has no retry bound parameter
and no `SubgroupNotFound` failure path; on a random stream that never
yields a point of order divisible by `p` (e.g. always the identity) the
loop never terminates, returning no result after any number of
iterations. -/
theorem C5_amended_unbounded (q : ℕ) [Fact q.Prime] (A B : ZMod q) (fuel : ℕ) :
    ecsigset q A B (fun _ => 0) fuel = none :=
  ecsigset_zero_stream A B fuel

/-- C5 amended, witness at a concrete instance. -/
theorem C5_amended_unbounded_witness : ecsigset 5 1 1 (fun _ => 0) 7 = none :=
  C5_amended_unbounded 5 1 1 7

/-- C6: the claim states that a signature with `s ≡ 0 (mod n)` is
rejected gracefully.  The code instead raises an uncaught
`ZeroDivisionError` from `s^(-1)`, aborting the caller: the result is
neither a boolean verdict nor the `"Invalid input"` sentinel. -/
theorem C6_zero_s_raises :
    ecdsaverify 11 1 6 (2, 7) 13 (2, 7) 1 (2, 0) = .raised ∧
    (∀ b : Bool, (Ret.raised : Ret Bool) ≠ .ok b) ∧
    (Ret.raised : Ret Bool) ≠ .invalidInput :=
  ⟨everify_c6, by decide, by decide⟩

/-- C7 counterexample: the claim states `ecsig` never returns a
signature component `s = 0`.  With `G = (2,7)` of order `13`, `d = 6`,
`m = 1`, `k = 2`: `r = 2` and `m + r·d = 13 ≡ 0`, so the returned
signature is `(2, 0)` — no retry occurs. -/
theorem C7_counterexample :
    ecsig 13 11 1 6 (2, 7) 6 1 2 = .ok ((2, 0), (7, 9)) ∧ ¬ (1 ≤ (0 : ℕ)) :=
  ⟨ecsig_c7, by decide⟩

/-- C7 amended: the components of a signature returned by `ecsig` are
residues mod `n`, i.e. lie in `[0, n-1]`; the degenerate values `r = 0`
and `s = 0` are not excluded and no retry is performed. -/
theorem C7_amended_range {p q : ℕ} [Fact q.Prime] {A B : ZMod q} {G : ZMod q × ZMod q}
    {d m k : ℕ} {r s : ℕ} {Qc : ℕ × ℕ}
    (h : ecsig p q A B G d m k = .ok ((r, s), Qc)) :
    r ≤ p - 1 ∧ s ≤ p - 1 := by
  unfold ecsig at h
  by_cases h1 : (curveW q A B).Δ = 0
  · rw [dif_pos h1] at h
    exact Ret.noConfusion h
  rw [dif_neg h1] at h
  by_cases h2 : onCurve q A B G
  · rw [dif_pos h2] at h
    by_cases h3 : addOrderOf (mkPoint h1 h2) ≠ p
    · rw [if_pos h3] at h
      exact Ret.noConfusion h
    rw [if_neg h3] at h
    by_cases h4 : p ≤ m ∨ q ≤ m
    · rw [if_pos h4] at h
      exact Ret.noConfusion h
    rw [if_neg h4] at h
    by_cases h5 : Nat.gcd k p ≠ 1
    · rw [if_pos h5] at h
      exact Ret.noConfusion h
    rw [if_neg h5] at h
    injection h with h
    have hp0 : 0 < p := not_ne_iff.mp h3 ▸ addOrderOf_pos (mkPoint h1 h2)
    haveI : NeZero p := ⟨hp0.ne'⟩
    have hr : ((G.1.val : ZMod p)).val = r := congrArg (fun x => x.1.1) h
    have hsv : (zinv p (k : ZMod p) *
        ((m : ZMod p) + (G.1.val : ZMod p) * (d : ZMod p))).val = s :=
      congrArg (fun x => x.1.2) h
    have hrlt := ZMod.val_lt ((G.1.val : ZMod p))
    have hslt := ZMod.val_lt (zinv p (k : ZMod p) *
        ((m : ZMod p) + (G.1.val : ZMod p) * (d : ZMod p)))
    omega
  · rw [dif_neg h2] at h
    exact Ret.noConfusion h

/-- C7 amended, witness: the signature produced with `d = 2`, `m = 1`,
`k = 2` on the order-13 subgroup has both components in `[0, 12]`. -/
theorem C7_amended_range_witness :
    ecsig 13 11 1 6 (2, 7) 2 1 2 = .ok ((2, 9), (5, 2)) ∧ 2 ≤ 13 - 1 ∧ 9 ≤ 13 - 1 :=
  ⟨ecsig_c1, C7_amended_range ecsig_c1⟩

/-- C8: whenever both ECDH public keys are computed successfully, the two
parties' shared secrets agree: `ecdh(p,A,B,b,a·G) = ecdh(p,A,B,a,b·G)`,
by commutativity of scalar multiplication in the abelian group. -/
theorem C8_ecdh_commutes {q : ℕ} [Fact q.Prime] (_hq : 3 < q) {A B : ZMod q}
    {P Qa Qb : ZMod q × ZMod q} {a b : ℕ}
    (ha : pubkey q A B P a = .ok Qa) (hb : pubkey q A B P b = .ok Qb) :
    ecdh q A B b Qa = ecdh q A B a Qb := by
  obtain ⟨hd, hP, hca⟩ := pubkey_ok ha
  obtain ⟨hd2, hP2, hcb⟩ := pubkey_ok hb
  have hpt : ecSmul b (mkPoint hd (onCurve_of_toCoords hca)) =
      ecSmul a (mkPoint hd2 (onCurve_of_toCoords hcb)) := by
    rw [mkPoint_toCoords hd hca (onCurve_of_toCoords hca),
      mkPoint_toCoords hd2 hcb (onCurve_of_toCoords hcb),
      ecSmul_eq, ecSmul_eq, ecSmul_eq, ecSmul_eq]
    exact smul_comm b a _
  rw [ecdh_eval hd (onCurve_of_toCoords hca), ecdh_eval hd2 (onCurve_of_toCoords hcb), hpt]

/-- C8 witness: on `y² = x³ + x + 1` over `GF(5)` with `G = (0,1)`,
`a = 2`, `b = 3`: both public keys succeed and the shared secrets agree
(both are `6·G = (2,4)`). -/
theorem C8_ecdh_commutes_witness :
    pubkey 5 1 1 (0, 1) 2 = .ok (4, 2) ∧ pubkey 5 1 1 (0, 1) 3 = .ok (2, 1) ∧ 3 < 5 ∧
    ecdh 5 1 1 3 (4, 2) = ecdh 5 1 1 2 (2, 1) := by
  have h1 : pubkey 5 1 1 (0, 1) 2 = .ok (4, 2) := by decide
  have h2 : pubkey 5 1 1 (0, 1) 3 = .ok (2, 1) := by decide
  exact ⟨h1, h2, by decide, C8_ecdh_commutes (by decide) h1 h2⟩

/-- C10: both `ecsig` and `ecdsaverify` compare `G.additive_order()`
with the claimed subgroup order `p` and return the `"Invalid input"`
sentinel when they differ, before producing any signature or verdict. -/
theorem C10_order_checked {p q : ℕ} [Fact q.Prime] {A B : ZMod q} {G Q : ZMod q × ZMod q}
    {d m k : ℕ} {sig : ℕ × ℕ}
    (hd : ¬ (curveW q A B).Δ = 0) (hG : onCurve q A B G) (hQ : onCurve q A B Q)
    (hord : addOrderOf (mkPoint hd hG) ≠ p) :
    ecsig p q A B G d m k = .invalidInput ∧ ecdsaverify q A B G p Q m sig = .invalidInput :=
  ⟨ecsig_badorder hd hG hord, ecdsaverify_badorder hd hG hQ hord⟩

/-- C10 witness: `(5, 2)` has order `13` on `y² = x³ + x + 6` over
`GF(11)`, so signing and verifying with the wrong claimed order `p = 7`
are both rejected with the `"Invalid input"` sentinel. -/
theorem C10_order_checked_witness :
    ecsig 7 11 1 6 (5, 2) 1 1 1 = .invalidInput ∧
    ecdsaverify 11 1 6 (5, 2) 7 (2, 7) 1 (1, 1) = .invalidInput :=
  C10_order_checked (by decide) (by decide) (by decide)
    (show addOrderOf G11b ≠ 7 by rw [addOrderOf_G11b]; decide)

end SkCrypto
